import Mathlib

/-!
Verification development for the `request_scan` repository
(`app.py`, `audit_client.py`): a shallow embedding of the ID-space
scanning engine (checkpoint navigation, retrying remote client,
scan orchestration, status-diff engine, envelope unwrapping and
audit filtering), together with theorems settling the specification
claims about it.

Remote calls are modelled by oracles: a scan run consumes a stream of
per-call outcomes (valid / invalid / transport error), which captures
any behaviour of the remote system.  Machine integers are `Int`
(Python integers are unbounded); Python `%` on a positive modulus
agrees with `Int.emod`.
-/

namespace RequestScan

/-! ## ID-space navigator (app.py lines 137-150) -/

/-- `_CHECKPOINT_LAST2 = (10, 30, 50, 70, 90)` (app.py line 137). -/
def CHECKPOINT_LAST2 : List Int := [10, 30, 50, 70, 90]

/-- `is_checkpoint_id(i)` (app.py line 139): `(i % 100) in _CHECKPOINT_LAST2`. -/
def is_checkpoint_id (i : Int) : Bool :=
  CHECKPOINT_LAST2.contains (i % 100)

/-- The `for c in _CHECKPOINT_LAST2: if last2 <= c: return i + (c - last2)`
loop of `next_checkpoint_id`, with the fall-through
`return (i - last2) + 100 + _CHECKPOINT_LAST2[0]` (app.py lines 146-150). -/
def nextCheckpointGo (i last2 : Int) : List Int → Int
  | [] => (i - last2) + 100 + 10
  | c :: cs => if last2 ≤ c then i + (c - last2) else nextCheckpointGo i last2 cs

/-- `next_checkpoint_id(i)` (app.py lines 142-150). -/
def next_checkpoint_id (i : Int) : Int :=
  nextCheckpointGo i (i % 100) CHECKPOINT_LAST2

theorem is_checkpoint_iff (j : Int) :
    is_checkpoint_id j = true ↔
      j % 100 = 10 ∨ j % 100 = 30 ∨ j % 100 = 50 ∨ j % 100 = 70 ∨ j % 100 = 90 := by
  simp [is_checkpoint_id, CHECKPOINT_LAST2, List.contains]

theorem next_checkpoint_id_eq (i : Int) :
    next_checkpoint_id i =
      if i % 100 ≤ 10 then i + (10 - i % 100)
      else if i % 100 ≤ 30 then i + (30 - i % 100)
      else if i % 100 ≤ 50 then i + (50 - i % 100)
      else if i % 100 ≤ 70 then i + (70 - i % 100)
      else if i % 100 ≤ 90 then i + (90 - i % 100)
      else (i - i % 100) + 100 + 10 := by
  simp [next_checkpoint_id, CHECKPOINT_LAST2, nextCheckpointGo]

theorem next_checkpoint_id_ge (i : Int) : i ≤ next_checkpoint_id i := by
  rw [next_checkpoint_id_eq]
  have h0 : 0 ≤ i % 100 := Int.emod_nonneg i (by norm_num)
  have h1 : i % 100 < 100 := Int.emod_lt_of_pos i (by norm_num)
  split_ifs <;> omega

theorem next_checkpoint_id_is_checkpoint (i : Int) :
    is_checkpoint_id (next_checkpoint_id i) = true := by
  rw [is_checkpoint_iff, next_checkpoint_id_eq]
  have h0 : 0 ≤ i % 100 := Int.emod_nonneg i (by norm_num)
  have h1 : i % 100 < 100 := Int.emod_lt_of_pos i (by norm_num)
  split_ifs <;> omega

theorem next_checkpoint_id_min (i j : Int) (hij : i ≤ j)
    (hj : is_checkpoint_id j = true) : next_checkpoint_id i ≤ j := by
  rw [is_checkpoint_iff] at hj
  rw [next_checkpoint_id_eq]
  have h0 : 0 ≤ i % 100 := Int.emod_nonneg i (by norm_num)
  have h1 : i % 100 < 100 := Int.emod_lt_of_pos i (by norm_num)
  split_ifs <;> omega

theorem next_checkpoint_id_idem (i : Int) :
    next_checkpoint_id (next_checkpoint_id i) = next_checkpoint_id i := by
  have h := next_checkpoint_id_is_checkpoint i
  have hle := next_checkpoint_id_ge (next_checkpoint_id i)
  have hmin := next_checkpoint_id_min (next_checkpoint_id i) (next_checkpoint_id i)
    le_rfl h
  omega

/-- C3: for every integer `i`, `next_checkpoint_id i` is the smallest `j ≥ i`
with `j % 100 ∈ {10,30,50,70,90}` (so it is `≥ i`, lands on a checkpoint, is
minimal among checkpoints `≥ i`, and is idempotent), and the four spec
examples hold. -/
theorem C3_next_checkpoint_correct :
    (∀ i : Int,
        i ≤ next_checkpoint_id i ∧
        is_checkpoint_id (next_checkpoint_id i) = true ∧
        (∀ j : Int, i ≤ j → is_checkpoint_id j = true → next_checkpoint_id i ≤ j) ∧
        next_checkpoint_id (next_checkpoint_id i) = next_checkpoint_id i) ∧
    next_checkpoint_id 40000 = 40010 ∧
    next_checkpoint_id 40010 = 40010 ∧
    next_checkpoint_id 40095 = 40110 ∧
    next_checkpoint_id 40099 = 40110 := by
  refine ⟨fun i => ⟨next_checkpoint_id_ge i, next_checkpoint_id_is_checkpoint i,
    fun j hij hj => next_checkpoint_id_min i j hij hj, next_checkpoint_id_idem i⟩,
    ?_, ?_, ?_, ?_⟩ <;> decide

/-! ## Python values

The JSON-decoded Python values the client manipulates (`r.json()` results,
dict/list/str/int/bool/None).  Floats do not occur in the logic under
verification and are not modelled. -/

inductive PyVal where
  | none : PyVal
  | bool : Bool → PyVal
  | int : Int → PyVal
  | str : String → PyVal
  | list : List PyVal → PyVal
  | dict : List (String × PyVal) → PyVal

/-- Python truthiness `bool(x)` for the modelled values. -/
def pyTruthy : PyVal → Bool
  | .none => false
  | .bool b => b
  | .int n => n != 0
  | .str s => s != ""
  | .list xs => xs.length != 0
  | .dict xs => xs.length != 0

/-- The whitespace `str.strip()` removes (ASCII fragment of the Python set,
which is all that occurs in the modelled data). -/
def isPyWs (c : Char) : Bool :=
  c = ' ' || c = '\t' || c = '\n' || c = '\r' || c = '\x0b' || c = '\x0c'

def stripChars (l : List Char) : List Char :=
  ((l.dropWhile isPyWs).reverse.dropWhile isPyWs).reverse

/-- `str.strip()`. -/
def pyStrip (s : String) : String := String.mk (stripChars s.data)

/-- `str.lower()`, for the characters this code compares: ASCII letters plus
the accented i of the truthy token "sí". -/
def pyLowerChar (c : Char) : Char :=
  if c = 'Í' then 'í' else c.toLower

def pyLower (s : String) : String := String.mk (s.data.map pyLowerChar)

/-- Is the first list a prefix of the second (by characters)? -/
def charsPref : List Char → List Char → Bool
  | [], _ => true
  | _ :: _, [] => false
  | p :: ps, c :: cs => p == c && charsPref ps cs

/-- `s.startswith(p)` (by code points, as in Python). -/
def pyStartsWith (s p : String) : Bool := charsPref p.data s.data

/-- `s.endswith(p)` (by code points, as in Python). -/
def pyEndsWith (s p : String) : Bool := charsPref p.data.reverse s.data.reverse

/-- `k in d` on a Python dict (keys are unique, so assoc-list search). -/
def dictHas (d : List (String × PyVal)) (k : String) : Bool :=
  d.any (fun p => p.1 == k)

/-- `d.get(k)` / `d[k]` on a Python dict. -/
def dictGet (d : List (String × PyVal)) (k : String) : Option PyVal :=
  (d.find? (fun p => p.1 == k)).map (fun p => p.2)

/-! ## A model of `json.loads`

Recursive-descent JSON reader (fuel-bounded), covering the JSON forms the
remote protocol produces: objects, arrays, strings with the common escapes,
integers, `true`/`false`/`null`.  (`\uXXXX` escapes and float literals are
outside the modelled fragment.) -/

def jsonWs (c : Char) : Bool :=
  c = ' ' || c = '\t' || c = '\n' || c = '\r'

def skipWs (l : List Char) : List Char :=
  match l with
  | c :: cs => if jsonWs c then skipWs cs else c :: cs
  | [] => []

def takeDigits : List Char → (List Char × List Char)
  | c :: cs =>
    if c.isDigit then
      let p := takeDigits cs
      (c :: p.1, p.2)
    else ([], c :: cs)
  | [] => ([], [])

/-- Value of a decimal digit string (underscores skipped; used both by the
JSON reader and by the `int()` model). -/
def decimalVal (l : List Char) : Int :=
  l.foldl (fun a c => if c = '_' then a else a * 10 + ((c.toNat : Int) - 48)) 0

/-- Body of a JSON string after the opening quote; returns the decoded
characters and the rest of the input. -/
def parseJStr (acc : List Char) : List Char → Option (List Char × List Char)
  | [] => Option.none
  | c :: cs =>
    if c = '"' then some (acc.reverse, cs)
    else if c = '\\' then
      match cs with
      | [] => Option.none
      | e :: cs2 =>
        if e = '"' then parseJStr ('"' :: acc) cs2
        else if e = '\\' then parseJStr ('\\' :: acc) cs2
        else if e = '/' then parseJStr ('/' :: acc) cs2
        else if e = 'n' then parseJStr ('\n' :: acc) cs2
        else if e = 't' then parseJStr ('\t' :: acc) cs2
        else if e = 'r' then parseJStr ('\r' :: acc) cs2
        else if e = 'b' then parseJStr ('\x08' :: acc) cs2
        else if e = 'f' then parseJStr ('\x0c' :: acc) cs2
        else Option.none
    else parseJStr (c :: acc) cs

mutual

def parseJVal : Nat → List Char → Option (PyVal × List Char)
  | 0, _ => Option.none
  | fuel+1, l =>
    match skipWs l with
    | [] => Option.none
    | c :: cs =>
      if c = 'n' then
        match cs with
        | 'u' :: 'l' :: 'l' :: r => some (.none, r)
        | _ => Option.none
      else if c = 't' then
        match cs with
        | 'r' :: 'u' :: 'e' :: r => some (.bool true, r)
        | _ => Option.none
      else if c = 'f' then
        match cs with
        | 'a' :: 'l' :: 's' :: 'e' :: r => some (.bool false, r)
        | _ => Option.none
      else if c = '"' then
        match parseJStr [] cs with
        | some (ds, r) => some (.str (String.mk ds), r)
        | Option.none => Option.none
      else if c = '-' then
        match takeDigits cs with
        | ([], _) => Option.none
        | (ds, r) => some (.int (-(decimalVal ds)), r)
      else if c.isDigit then
        match takeDigits (c :: cs) with
        | (ds, r) => some (.int (decimalVal ds), r)
      else if c = '[' then parseJArr fuel cs []
      else if c = '\x7b' then parseJObj fuel cs []
      else Option.none

def parseJArr : Nat → List Char → List PyVal → Option (PyVal × List Char)
  | 0, _, _ => Option.none
  | fuel+1, l, acc =>
    match skipWs l with
    | ']' :: r => if acc.isEmpty then some (.list [], r) else Option.none
    | l2 =>
      match parseJVal fuel l2 with
      | Option.none => Option.none
      | some (v, r) =>
        match skipWs r with
        | ',' :: r2 => parseJArr fuel r2 (v :: acc)
        | ']' :: r2 => some (.list (v :: acc).reverse, r2)
        | _ => Option.none

def parseJObj : Nat → List Char → List (String × PyVal) → Option (PyVal × List Char)
  | 0, _, _ => Option.none
  | fuel+1, l, acc =>
    match skipWs l with
    | '\x7d' :: r => if acc.isEmpty then some (.dict [], r) else Option.none
    | '"' :: r =>
      match parseJStr [] r with
      | Option.none => Option.none
      | some (ks, r2) =>
        match skipWs r2 with
        | ':' :: r3 =>
          match parseJVal fuel r3 with
          | Option.none => Option.none
          | some (v, r4) =>
            match skipWs r4 with
            | ',' :: r5 => parseJObj fuel r5 ((String.mk ks, v) :: acc)
            | '\x7d' :: r5 => some (.dict ((String.mk ks, v) :: acc).reverse, r5)
            | _ => Option.none
        | _ => Option.none
    | _ => Option.none

end

/-- `json.loads(s)` on the modelled fragment: parse one value and require
only whitespace after it. -/
def json_loads (s : String) : Option PyVal :=
  match parseJVal (s.length + 1) s.data with
  | some (v, r) => if skipWs r = [] then some v else Option.none
  | Option.none => Option.none

/-! ## Envelope unwrapping and truthiness normalisation
(app.py lines 101-123 and 194-196; audit_client.py lines 40-52 and 114-116;
the two `_unwrap_d` and the two `validate_only` are textually identical). -/

/-- `_unwrap_d(obj)`: take the `"d"` envelope field if present; when it is a
string that looks like a JSON object or array, try a second decode pass,
falling back to the raw string; pass anything else through unchanged. -/
def unwrap_d (obj : PyVal) : PyVal :=
  match obj with
  | .dict d =>
    if dictHas d "d" then
      match (dictGet d "d").getD .none with
      | .str s =>
        let t := pyStrip s
        if (pyStartsWith t "\x7b" && pyEndsWith t "\x7d")
            || (pyStartsWith t "[" && pyEndsWith t "]") then
          match json_loads t with
          | some v => v
          | Option.none => .str s
        else .str s
      | p => p
    else obj
  | _ => obj

def TRUTHY_STRS : List String := ["true", "1", "si", "sí", "ok", "yes", "y"]

def FALSY_STRS : List String := ["false", "0", "no", "null", ""]

/-- `_boolish(x)` (app.py lines 114-123).  Note: this helper is defined but
never called by the validation path. -/
def boolish (x : PyVal) : Bool :=
  match x with
  | .bool b => b
  | .str s =>
    let t := pyLower (pyStrip s)
    if TRUTHY_STRS.contains t then true
    else if FALSY_STRS.contains t then false
    else pyTruthy (.str s)
  | _ => pyTruthy x

/-- The normalisation `validate_only` actually applies to the unwrapped
payload (app.py line 195, audit_client.py line 115):
`(str(raw).strip().lower() in truthy_set) if isinstance(raw, str) else bool(raw)`. -/
def validate_norm (raw : PyVal) : Bool :=
  match raw with
  | .str s => TRUTHY_STRS.contains (pyLower (pyStrip s))
  | x => pyTruthy x

/-- The boolean `valid` computed by `validate_only` from the HTTP response
body (app.py lines 194-195). -/
def validate_only_valid (resp : PyVal) : Bool :=
  validate_norm (unwrap_d resp)

/-- The normalisation exactly as the claim words it (a locale-aware truthy
set, an explicit falsy set, and general truthiness for any other non-null
value) — this is what `_boolish` computes, stated from the claim for
comparison with the code's `validate_only`. -/
def claimed_validate_norm (raw : PyVal) : Bool :=
  match raw with
  | .none => false
  | .str s =>
    let t := pyLower (pyStrip s)
    if TRUTHY_STRS.contains t then true
    else if FALSY_STRS.contains t then false
    else pyTruthy (.str s)
  | x => pyTruthy x

/-- C8: envelope unwrapping — a `d`-wrapped string-encoded object is decoded
twice, a `d`-wrapped object is unwrapped once, and a response without a `d`
envelope passes through unchanged. -/
theorem C8_unwrap_envelope :
    unwrap_d (.dict [("d", .str "\x7b\"x\":1\x7d")]) = .dict [("x", .int 1)] ∧
    unwrap_d (.dict [("d", .dict [("x", .int 1)])]) = .dict [("x", .int 1)] ∧
    unwrap_d (.dict [("x", .int 1)]) = .dict [("x", .int 1)] :=
  ⟨rfl, rfl, rfl⟩

/-- C5 counterexample: the claim says any non-null value outside the listed
true/false string forms is coerced by general truthiness, so the string
"abc" (non-null, in neither list, truthy in Python) would validate as true;
the code's validation step returns false for every string outside the truthy
set.  (`_boolish`, which does behave as the claim words it, is dead code:
the validation path never calls it.) -/
theorem C5_counterexample :
    claimed_validate_norm (.str "abc") = true ∧
    pyTruthy (.str "abc") = true ∧
    validate_only_valid (.str "abc") = false ∧
    boolish (.str "abc") = true :=
  ⟨rfl, rfl, rfl, rfl⟩

/-- C5 amended: the validation step maps a string response to true exactly
when its trimmed, lowercased form is in the truthy set
{"true","1","si","sí","ok","yes","y"}; every other string — including the
listed falsy forms and any unrecognised string — is false; a non-string
non-null response is coerced by general truthiness; null is false. -/
theorem C5_validation_normalisation :
    (∀ s : String, validate_norm (.str s) = true ↔ pyLower (pyStrip s) ∈ TRUTHY_STRS) ∧
    validate_norm PyVal.none = false ∧
    (∀ b : Bool, validate_norm (.bool b) = b) ∧
    (∀ n : Int, validate_norm (.int n) = true ↔ n ≠ 0) ∧
    (∀ xs : List PyVal, validate_norm (.list xs) = true ↔ xs ≠ []) ∧
    (∀ d : List (String × PyVal), validate_norm (.dict d) = true ↔ d ≠ []) ∧
    (∀ s : String, pyLower (pyStrip s) ∈ FALSY_STRS → validate_norm (.str s) = false) ∧
    (∀ resp : PyVal, validate_only_valid resp = validate_norm (unwrap_d resp)) := by
  refine ⟨?_, rfl, ?_, ?_, ?_, ?_, ?_, fun _ => rfl⟩
  · intro s
    simp [validate_norm, List.contains, List.elem_iff]
  · intro b
    cases b <;> rfl
  · intro n
    simp [validate_norm, pyTruthy]
  · intro xs
    simp [validate_norm, pyTruthy, List.length_eq_zero]
  · intro d
    simp [validate_norm, pyTruthy, List.length_eq_zero]
  · intro s h
    simp only [FALSY_STRS, List.mem_cons, List.mem_singleton, List.not_mem_nil,
      or_false] at h
    rcases h with h | h | h | h | h <;> simp [validate_norm, TRUTHY_STRS, h]

/-! ## Retrying HTTP wrappers (app.py lines 153-177, audit_client.py 55-95)

An HTTP operation is abstracted by its attempt oracle
`attempt : Nat → Except E R`: the outcome of the k-th attempt (error =
`requests.RequestException`, i.e. connection error, timeout or non-2xx
status raised by `raise_for_status`). -/

def exceptIsOk {E R : Type} : Except E R → Bool
  | .ok _ => true
  | .error _ => false

/-- The body of `_post_json_with_retries` / `_get_with_retries`:
`for _ in range(retries+1): try: return call() except RequestException as e:
last = e; sleep(...)` then `raise last`.  `retryLoop attempt k n` runs
attempt `k` with `n` further iterations remaining: it returns the first
success, and once the final iteration fails, that last failure is the one
propagated. -/
def retryLoop {E R : Type} (attempt : Nat → Except E R) : Nat → Nat → Except E R
  | k, 0 => attempt k
  | k, n+1 =>
    match attempt k with
    | .ok r => .ok r
    | .error _ => retryLoop attempt (k+1) n

/-- `_post_json_with_retries(s, url, ..., retries)`: used by the validate
POST (app.py 189, audit_client 109) and the encrypt POST (app.py 216,
audit_client 129). -/
def post_json_with_retries {E R : Type} (attempt : Nat → Except E R)
    (retries : Nat) : Except E R :=
  retryLoop attempt 0 retries

/-- `_get_with_retries(s, url, ..., retries)`: used by the priming GET
(app.py 230, audit_client 144). -/
def get_with_retries {E R : Type} (attempt : Nat → Except E R)
    (retries : Nat) : Except E R :=
  retryLoop attempt 0 retries

/-- The final data fetch: `r4 = s.post(url_cargar, ...); r4.raise_for_status()`
(app.py 238-244) and the audit fetch `r = s.post(url, ...);
r.raise_for_status()` (audit_client 159-160).  A single attempt; the retry
budget is never consulted. -/
def cargar_datos_request {E R : Type} (attempt : Nat → Except E R)
    (_retries : Nat) : Except E R :=
  attempt 0

theorem retryLoop_all_fail {E R : Type} (attempt : Nat → Except E R) :
    ∀ (n k : Nat), (∀ m, m ≤ n → exceptIsOk (attempt (k + m)) = false) →
      retryLoop attempt k n = attempt (k + n) := by
  intro n
  induction n with
  | zero => intro k _; rfl
  | succ n ih =>
    intro k h
    have h0 : exceptIsOk (attempt k) = false := by
      simpa using h 0 (Nat.zero_le _)
    cases hk : attempt k with
    | ok r => rw [hk] at h0; simp [exceptIsOk] at h0
    | error e =>
      have hrec := ih (k + 1) (fun m hm => by
        have hkm : k + 1 + m = k + (m + 1) := by omega
        rw [hkm]
        exact h (m + 1) (by omega))
      have hkn : k + 1 + n = k + (n + 1) := by omega
      rw [hkn] at hrec
      simp [retryLoop, hk, hrec]

theorem retryLoop_first_ok {E R : Type} (attempt : Nat → Except E R) :
    ∀ (n k j : Nat) (r : R), j ≤ n →
      (∀ m, m < j → exceptIsOk (attempt (k + m)) = false) →
      attempt (k + j) = Except.ok r →
      retryLoop attempt k n = Except.ok r := by
  intro n
  induction n with
  | zero =>
    intro k j r hj h hok
    have hj0 : j = 0 := Nat.le_zero.mp hj
    subst hj0
    rw [Nat.add_zero] at hok
    simpa [retryLoop] using hok
  | succ n ih =>
    intro k j r hj h hok
    cases j with
    | zero =>
      rw [Nat.add_zero] at hok
      simp [retryLoop, hok]
    | succ j =>
      have h0 : exceptIsOk (attempt k) = false := by
        simpa using h 0 (Nat.succ_pos _)
      cases hk : attempt k with
      | ok r2 => rw [hk] at h0; simp [exceptIsOk] at h0
      | error e =>
        have hrec := ih (k + 1) j r (by omega)
          (fun m hm => by
            have hkm : k + 1 + m = k + (m + 1) := by omega
            rw [hkm]
            exact h (m + 1) (by omega))
          (by
            have hkj : k + 1 + j = k + (j + 1) := by omega
            rw [hkj]
            exact hok)
        simp [retryLoop, hk, hrec]

/-- C2 counterexample: an attempt oracle whose first attempt is a transport
failure and whose second succeeds, with retry budget `retries = 1`.  The
claim says every one of the four remote operations retries and so would
recover (as the retrying wrappers indeed do), but the final data fetch
(`CargarDatosSolicitud` in `load_valid_id_full`, `CargarDatosAuditoria` in
`load_auditoria`) performs a single attempt and propagates the first
failure immediately. -/
def c2Attempt : Nat → Except String String :=
  fun k => if k = 0 then Except.error "ConnectTimeout" else Except.ok "payload"

theorem C2_counterexample :
    cargar_datos_request c2Attempt 1 = Except.error "ConnectTimeout" ∧
    post_json_with_retries c2Attempt 1 = Except.ok "payload" ∧
    exceptIsOk (c2Attempt 1) = true :=
  ⟨rfl, rfl, rfl⟩

/-- C2 amended: the validate and encrypt POSTs and the priming GET go
through the retrying wrappers, which return the first success among the
`retries + 1` attempts and, once every attempt has failed, propagate the
final failure; the fourth operation (the data/audit fetch POST) makes
exactly one attempt and never consults the retry budget.  (The fixed
inter-attempt sleep is a real-time effect outside the embedding.) -/
theorem C2_retry_policy :
    (∀ (E R : Type) (attempt : Nat → Except E R) (retries : Nat),
        (∀ m, m ≤ retries → exceptIsOk (attempt m) = false) →
        post_json_with_retries attempt retries = attempt retries) ∧
    (∀ (E R : Type) (attempt : Nat → Except E R) (retries j : Nat) (r : R),
        j ≤ retries →
        (∀ m, m < j → exceptIsOk (attempt m) = false) →
        attempt j = Except.ok r →
        post_json_with_retries attempt retries = Except.ok r) ∧
    (∀ (E R : Type) (attempt : Nat → Except E R) (retries : Nat),
        get_with_retries attempt retries = post_json_with_retries attempt retries) ∧
    (∀ (E R : Type) (attempt : Nat → Except E R) (retries : Nat),
        cargar_datos_request attempt retries = attempt 0) := by
  refine ⟨?_, ?_, fun _ _ _ _ => rfl, fun _ _ _ _ => rfl⟩
  · intro E R attempt retries h
    simpa using retryLoop_all_fail attempt retries 0 (fun m hm => by simpa using h m hm)
  · intro E R attempt retries j r hj h hok
    exact retryLoop_first_ok attempt retries 0 j r hj
      (fun m hm => by simpa using h m hm) (by simpa using hok)

/-! ## `filter_audit_since` (audit_client.py lines 281-295) -/

/-- Tail of a decimal literal after its first digit: digits, with single
underscores allowed between digits (as Python `int()` accepts). -/
def digitsRest : List Char → Bool
  | [] => true
  | c :: cs =>
    if c = '_' then
      match cs with
      | [] => false
      | c2 :: cs2 => c2.isDigit && digitsRest cs2
    else c.isDigit && digitsRest cs

def digitsOk : List Char → Bool
  | [] => false
  | c :: cs => c.isDigit && digitsRest cs

/-- Python `int(s)` on decimal string input: surrounding whitespace is
allowed, then an optional sign and a digit run (with single underscores
between digits); anything else raises, modelled as `Option.none`. -/
def pyInt (s : String) : Option Int :=
  match stripChars s.data with
  | [] => Option.none
  | c :: rest =>
    if c = '+' then if digitsOk rest then some (decimalVal rest) else Option.none
    else if c = '-' then
      if digitsOk rest then some (-(decimalVal rest)) else Option.none
    else if digitsOk (c :: rest) then some (decimalVal (c :: rest))
    else Option.none

/-- The Python slice `dt[6:-2]` (code points 6 up to length − 2, clamped). -/
def pySlice6m2 (s : String) : String :=
  String.mk ((s.data.take (s.data.length - 2)).drop 6)

/-- One auditoría entry: a JSON object. -/
def AuditEntry := List (String × PyVal)

/-- The per-entry test inside the `filter_audit_since` loop: the
`FECHA_AUDITORIA` field must exist, be a string starting with `"/Date("`,
and `int(dt[6:-2])` must parse and be `≥ cutoff`; any failure in that chain
silently drops the entry. -/
def entryKept (cutoff : Int) (a : AuditEntry) : Bool :=
  match dictGet a "FECHA_AUDITORIA" with
  | some (.str dt) =>
    if pyStartsWith dt "/Date(" then
      match pyInt (pySlice6m2 dt) with
      | some ms => decide (cutoff ≤ ms)
      | Option.none => false
    else false
  | _ => false

/-- `filter_audit_since(audit_list, cutoff_ms)`; a Python `None` list is
`Option.none`. -/
def filter_audit_since (audit_list : Option (List AuditEntry))
    (cutoff_ms : Option Int) : List AuditEntry :=
  match audit_list, cutoff_ms with
  | Option.none, _ => []
  | some [], _ => []
  | some l, Option.none => l
  | some l, some cutoff => l.filter (entryKept cutoff)

theorem charsPref_append (p t : List Char) : charsPref p (p ++ t) = true := by
  induction p with
  | nil => rfl
  | cons c cs ih => simp [charsPref, ih]

theorem isDigit_not_underscore {c : Char} (h : c.isDigit = true) : ¬(c = '_') := by
  intro hc
  subst hc
  simp [Char.isDigit] at h

theorem isDigit_not_ws {c : Char} (h : c.isDigit = true) : isPyWs c = false := by
  simp only [isPyWs, Bool.or_eq_false_iff, decide_eq_false_iff_not]
  refine ⟨⟨⟨⟨⟨?_, ?_⟩, ?_⟩, ?_⟩, ?_⟩, ?_⟩ <;>
    · intro hc
      subst hc
      simp [Char.isDigit] at h

theorem dropWhile_isPyWs_eq_self {l : List Char}
    (h : ∀ c ∈ l, isPyWs c = false) : List.dropWhile isPyWs l = l := by
  cases l with
  | nil => rfl
  | cons a t =>
    rw [List.dropWhile_cons, if_neg]
    simp [h a (List.mem_cons_self a t)]

theorem stripChars_eq_self {l : List Char}
    (h : ∀ c ∈ l, isPyWs c = false) : stripChars l = l := by
  unfold stripChars
  rw [dropWhile_isPyWs_eq_self h, dropWhile_isPyWs_eq_self, List.reverse_reverse]
  intro c hc
  exact h c (List.mem_reverse.mp hc)

theorem digitsRest_of_digits {l : List Char}
    (h : ∀ c ∈ l, c.isDigit = true) : digitsRest l = true := by
  induction l with
  | nil => rfl
  | cons c cs ih =>
    have hc := h c (List.mem_cons_self c cs)
    rw [digitsRest.eq_def]
    simp only [if_neg (isDigit_not_underscore hc)]
    simp [hc, ih (fun x hx => h x (List.mem_cons_of_mem c hx))]

theorem digitsOk_of_digits {l : List Char} (hne : l ≠ [])
    (h : ∀ c ∈ l, c.isDigit = true) : digitsOk l = true := by
  cases l with
  | nil => exact absurd rfl hne
  | cons c cs =>
    rw [digitsOk]
    simp [h c (List.mem_cons_self c cs),
      digitsRest_of_digits (fun x hx => h x (List.mem_cons_of_mem c hx))]

theorem pyInt_digits {l : List Char} (hne : l ≠ [])
    (h : ∀ c ∈ l, c.isDigit = true) :
    pyInt (String.mk l) = some (decimalVal l) := by
  have hstrip : stripChars l = l :=
    stripChars_eq_self (fun c hc => isDigit_not_ws (h c hc))
  unfold pyInt
  rw [show (String.mk l).data = l from rfl, hstrip]
  cases l with
  | nil => exact absurd rfl hne
  | cons c cs =>
    have hc := h c (List.mem_cons_self c cs)
    have hplus : ¬(c = '+') := by
      intro hc2; subst hc2; simp [Char.isDigit] at hc
    have hminus : ¬(c = '-') := by
      intro hc2; subst hc2; simp [Char.isDigit] at hc
    have hok := digitsOk_of_digits (l := c :: cs) (by simp) h
    simp only [if_neg hplus, if_neg hminus, if_pos hok]

def DATE_PREF : List Char := "/Date(".data

def isPyStr : PyVal → Bool
  | .str _ => true
  | _ => false

theorem slice_date (ds : List Char) :
    pySlice6m2 (String.mk (DATE_PREF ++ (ds ++ [')', '/']))) = String.mk ds := by
  unfold pySlice6m2
  congr 1
  rw [show (String.mk (DATE_PREF ++ (ds ++ [')', '/']))).data
      = DATE_PREF ++ (ds ++ [')', '/']) from rfl]
  rw [← List.append_assoc]
  have hlen : (DATE_PREF ++ ds ++ [')', '/']).length - 2 = (DATE_PREF ++ ds).length := by
    simp
    omega
  rw [hlen, List.take_left]
  rw [show (6 : Nat) = DATE_PREF.length from rfl, List.drop_left]

/-- C10 counterexample: the entry timestamp "/Date(50)x" is not of the form
"/Date(ms)/" (it does not end in ")/"), so the claim says it is dropped; the
code only checks the "/Date(" head, slices `dt[6:-2] = "50"`, parses 50 and
keeps the entry for any cutoff `≤ 50` (here 0). -/
def c10Entry : AuditEntry := [("FECHA_AUDITORIA", PyVal.str "/Date(50)x")]

theorem C10_counterexample :
    filter_audit_since (some [c10Entry]) (some 0) = [c10Entry] ∧
    pyEndsWith "/Date(50)x" ")/" = false :=
  ⟨rfl, rfl⟩

/-- C10 amended: with a non-null cutoff the function keeps, in original
order, exactly the entries whose `FECHA_AUDITORIA` is a string starting
with "/Date(" whose slice `dt[6:-2]` parses as an integer `≥ cutoff` — for
a well-formed "/Date(<digits>)/" value that integer is the digits' decimal
value, but a malformed tail is not rejected; entries with a missing,
non-string or unparseable field are silently dropped; a null cutoff returns
the input unchanged, and a null or empty input yields the empty list. -/
theorem C10_filter_audit_since :
    (∀ l : List AuditEntry, filter_audit_since (some l) Option.none = l) ∧
    (∀ c : Option Int, filter_audit_since Option.none c = []) ∧
    (∀ c : Option Int, filter_audit_since (some []) c = []) ∧
    (∀ (l : List AuditEntry) (c : Int),
        filter_audit_since (some l) (some c) = l.filter (entryKept c)) ∧
    (∀ (l : List AuditEntry) (c : Int),
        (filter_audit_since (some l) (some c)).Sublist l) ∧
    (∀ (c : Int) (a : AuditEntry),
        dictGet a "FECHA_AUDITORIA" = Option.none → entryKept c a = false) ∧
    (∀ (c : Int) (a : AuditEntry) (v : PyVal),
        dictGet a "FECHA_AUDITORIA" = some v → isPyStr v = false →
        entryKept c a = false) ∧
    (∀ (c : Int) (a : AuditEntry) (dt : String),
        dictGet a "FECHA_AUDITORIA" = some (.str dt) →
        pyStartsWith dt "/Date(" = false → entryKept c a = false) ∧
    (∀ (c : Int) (a : AuditEntry) (ds : List Char),
        dictGet a "FECHA_AUDITORIA" =
          some (.str (String.mk (DATE_PREF ++ (ds ++ [')', '/'])))) →
        ds ≠ [] → (∀ ch ∈ ds, ch.isDigit = true) →
        entryKept c a = decide (c ≤ decimalVal ds)) := by
  refine ⟨?_, fun _ => rfl, fun c => by cases c <;> rfl, ?_, ?_, ?_, ?_, ?_, ?_⟩
  · intro l
    cases l <;> rfl
  · intro l c
    cases l <;> rfl
  · intro l c
    cases l with
    | nil => exact List.Sublist.refl []
    | cons a t =>
      show ((a :: t).filter (entryKept c)).Sublist (a :: t)
      exact List.filter_sublist _
  · intro c a h
    unfold entryKept
    rw [h]
  · intro c a v h hv
    unfold entryKept
    rw [h]
    cases v <;> simp_all [isPyStr]
  · intro c a dt h hpre
    unfold entryKept
    rw [h]
    simp [hpre]
  · intro c a ds h hne hdig
    unfold entryKept
    rw [h]
    have hpre : pyStartsWith (String.mk (DATE_PREF ++ (ds ++ [')', '/']))) "/Date(" = true := by
      unfold pyStartsWith
      exact charsPref_append DATE_PREF (ds ++ [')', '/'])
    simp only [hpre, if_true, slice_date ds, pyInt_digits hne hdig]

/-! ## Status-diff engine (app.py lines 536-657)

One item of a `/status/refresh` batch.  The remote interaction of one item
is abstracted by an oracle: the outcome of `get_status_for_id`, whether the
`load_auditoria` fetch raises, and whether the `status_change` webhook POST
raises. -/

structure LiveStatus where
  valid : Bool
  status_code : Option Int
  status_text : Option String

structure StatusItemIn where
  last_status_text : Option String
  last_status_code : Option Int

/-- `(x or "").strip() if x else None` (app.py lines 582 and 584): a missing
or empty text is absent; a present text is whitespace-trimmed. -/
def normText (x : Option String) : Option String :=
  match x with
  | Option.none => Option.none
  | some s => if s = "" then Option.none else some (pyStrip s)

/-- The change test (app.py lines 587-594): when both (normalised) texts are
present compare them; else when both codes are present compare their string
forms; else treat the item as changed. -/
def changed_now (oldText liveText : Option String)
    (oldCode liveCode : Option Int) : Bool :=
  match oldText, liveText with
  | some o, some l => l != o
  | _, _ =>
    match oldCode, liveCode with
    | some oc, some lc => toString lc != toString oc
    | _, _ => true

inductive SREvent where
  | status_change
  | status_item_error
  deriving Repr, DecidableEq

structure SRItemEnv where
  live : Except Unit LiveStatus
  audit_fails : Bool
  change_post_fails : Bool

structure SRState where
  processed : Nat
  changed : Nat
  invalid : Nat
  errors : Nat
  events : List SREvent
  deriving Repr, DecidableEq

def initSR : SRState := ⟨0, 0, 0, 0, []⟩

/-- One iteration of the `for it in body.items` loop (app.py lines 562-636).
Note on the `change_post_fails` branch: the handler guarding the
`status_change` POST is `except Exception: print(str(e))` (app.py 619-620)
with no `as e` binding — and any earlier `except Exception as e` binding is
deleted when its handler exits — so on a delivery failure the handler itself
raises `NameError`, which the per-item handler (app.py 626-636) catches:
`errors += 1` plus a `status_item_error` notification. -/
def status_refresh_item (st : SRState) (it : StatusItemIn)
    (env : SRItemEnv) : SRState :=
  let st := { st with processed := st.processed + 1 }
  match env.live with
  | .error _ =>
    { st with errors := st.errors + 1, events := st.events ++ [.status_item_error] }
  | .ok live =>
    if !live.valid then { st with invalid := st.invalid + 1 }
    else
      let live_text := normText live.status_text
      let old_text := normText it.last_status_text
      if changed_now old_text live_text it.last_status_code live.status_code then
        let st := { st with changed := st.changed + 1 }
        if env.audit_fails then
          { st with
            errors := st.errors + 1
            events := st.events ++ [.status_item_error] }
        else if env.change_post_fails then
          { st with
            errors := st.errors + 1
            events := st.events ++ [.status_item_error] }
        else { st with events := st.events ++ [.status_change] }
      else st

/-- C6: a status item whose live status (text "Aprobado") differs from the
prior one ("Pendiente"), and whose `status_change` webhook POST fails. -/
def c6Item : StatusItemIn := ⟨some "Pendiente", Option.none⟩

def c6Env : SRItemEnv := ⟨.ok ⟨true, Option.none, some "Aprobado"⟩, false, true⟩

/-- C6: at the failing input, the failure to deliver the `status_change`
notification is not swallowed: the item ends with `errors = 1` and a
`status_item_error` event — the unbound `e` in the notification handler
turns the swallowed POST failure into a `NameError` that escalates to the
per-item error path, contradicting the claim that notification failures
never increment an error counter nor trigger an item-error event. -/
theorem C6_notification_failure_escalates :
    status_refresh_item initSR c6Item c6Env =
      ⟨1, 1, 0, 1, [SREvent.status_item_error]⟩ :=
  rfl

/-- C9 counterexample: prior text " Pendiente" and live text "Pendiente" are
both present and differ as texts, yet the item is not marked changed and no
event fires — the code compares the whitespace-trimmed texts. -/
def c9Item : StatusItemIn := ⟨some " Pendiente", Option.none⟩

def c9Env : SRItemEnv := ⟨.ok ⟨true, Option.none, some "Pendiente"⟩, false, false⟩

theorem C9_counterexample :
    (" Pendiente" : String) ≠ "Pendiente" ∧
    status_refresh_item initSR c9Item c9Env = ⟨1, 0, 0, 0, []⟩ := by
  refine ⟨by decide, rfl⟩

/-- C9 amended: for an item with a live valid status, if both the prior and
live status texts are present (non-empty), the item is changed iff the
whitespace-trimmed texts differ; else if both codes are present, changed iff
their string forms differ; else, changed.  Prior "Pendiente" vs live
"Aprobado" fires one `status_change` event and increments `changed`;
identical texts fire no event and leave `changed` at 0. -/
theorem C9_status_diff :
    (∀ (o l : String) (oc lc : Option Int),
        changed_now (some o) (some l) oc lc = true ↔ l ≠ o) ∧
    (∀ (ot lt : Option String) (oc lc : Int),
        ot = Option.none ∨ lt = Option.none →
        (changed_now ot lt (some oc) (some lc) = true ↔ toString lc ≠ toString oc)) ∧
    (∀ (ot lt : Option String) (oc lc : Option Int),
        (ot = Option.none ∨ lt = Option.none) →
        (oc = Option.none ∨ lc = Option.none) →
        changed_now ot lt oc lc = true) ∧
    status_refresh_item initSR ⟨some "Pendiente", Option.none⟩
        ⟨.ok ⟨true, Option.none, some "Aprobado"⟩, false, false⟩ =
      ⟨1, 1, 0, 0, [SREvent.status_change]⟩ ∧
    status_refresh_item initSR ⟨some "Pendiente", Option.none⟩
        ⟨.ok ⟨true, Option.none, some "Pendiente"⟩, false, false⟩ =
      ⟨1, 0, 0, 0, []⟩ := by
  refine ⟨?_, ?_, ?_, rfl, rfl⟩
  · intro o l oc lc
    simp [changed_now]
  · intro ot lt oc lc h
    rcases h with h | h <;> subst h
    · cases lt <;> simp [changed_now]
    · cases ot <;> simp [changed_now]
  · intro ot lt oc lc h hc
    rcases h with h | h <;> subst h <;>
      rcases hc with hc | hc <;> subst hc
    · cases lt <;> cases lc <;> simp [changed_now]
    · cases lt <;> cases oc <;> simp [changed_now]
    · cases ot <;> cases lc <;> simp [changed_now]
    · cases ot <;> cases oc <;> simp [changed_now]

/-! ## Scan orchestrator (`run_scan`, app.py lines 249-381)

The remote system is abstracted by an oracle `Env`: `validate k` is the
outcome of the k-th `validate_only` call of the job (valid / invalid, or a
raised exception after retries), `fetch k` the outcome of the k-th
`load_valid_id_full` call.  The state carries the four counters of
`run_scan`, the two call counters, the list of ids passed to
`validate_only` in order (`visited`), and one specification-only ghost
counter `errFetch` counting the errors raised by `load_valid_id_full`
(a sub-count of `errors`; no code reads it).  Loops are fuel-bounded:
`Option.none` means the fuel ran out before the loop exited. -/

inductive VOut where
  | valid
  | invalid
  | error
  deriving Repr, DecidableEq

inductive FOut where
  | ok
  | fail
  deriving Repr, DecidableEq

structure Env where
  validate : Nat → VOut
  fetch : Nat → FOut

structure ScanCfg where
  start_id : Int
  end_id : Int
  fetch_data_for_valid : Bool

structure ScanState where
  processed : Nat
  found : Nat
  skipped : Nat
  errors : Nat
  kv : Nat
  kf : Nat
  visited : List Int
  errFetch : Nat
  deriving Repr, DecidableEq

def initScan : ScanState := ⟨0, 0, 0, 0, 0, 0, [], 0⟩

/-- The boundary test of the checkpoint loop (app.py lines 296, 346, 372):
`(start <= end and x > end) or (start > end and x < end)`. -/
def outOfRange (cfg : ScanCfg) (x : Int) : Bool :=
  (cfg.start_id ≤ cfg.end_id && cfg.end_id < x)
    || (cfg.end_id < cfg.start_id && x < cfg.end_id)

/-- How one run of the inner expansion loop ended: `normal j` — the loop
broke out with cursor value `j` (the first invalid id, or the first id past
the boundary), after which the outer loop sets `i = next_checkpoint_id j`;
`exc` — a call raised, handled by the outer `except` (app.py 364-369),
which sets `i = next_checkpoint_id (i + 1)`. -/
inductive ExpandExit where
  | normal (j : Int)
  | exc
  deriving Repr, DecidableEq

/-- Result of one pass of the expansion loop body at cursor `j`: either the
loop ends (`break` / a raised exception), or it advances to `j + 1`. -/
inductive StepRes where
  | exit (st : ScanState) (ex : ExpandExit)
  | next (st : ScanState)
  deriving Repr, DecidableEq

/-- Body of the inner expansion loop (app.py lines 310-343) at cursor `j`:
for `j == i` the id is already validated (fetch full data if requested);
otherwise validate `j`, on valid fetch, on invalid record a skip and break;
a raised call exits with `.exc`. -/
def expandStep (env : Env) (cfg : ScanCfg) (iStart j : Int)
    (st : ScanState) : StepRes :=
  if j = iStart then
    if cfg.fetch_data_for_valid then
      match env.fetch st.kf with
      | .fail =>
        .exit { st with
          kf := st.kf + 1
          errFetch := st.errFetch + 1 } .exc
      | .ok =>
        .next { st with
          kf := st.kf + 1
          found := st.found + 1 }
    else .next { st with found := st.found + 1 }
  else
    match env.validate st.kv with
    | .error =>
      .exit { st with
        kv := st.kv + 1
        visited := st.visited ++ [j] } .exc
    | .valid =>
      let st1 := { st with
        kv := st.kv + 1
        processed := st.processed + 1
        visited := st.visited ++ [j] }
      if cfg.fetch_data_for_valid then
        match env.fetch st1.kf with
        | .fail =>
          .exit { st1 with
            kf := st1.kf + 1
            errFetch := st1.errFetch + 1 } .exc
        | .ok =>
          .next { st1 with
            kf := st1.kf + 1
            found := st1.found + 1 }
      else .next { st1 with found := st1.found + 1 }
    | .invalid =>
      .exit { st with
        kv := st.kv + 1
        processed := st.processed + 1
        skipped := st.skipped + 1
        visited := st.visited ++ [j] } (.normal j)

/-- The inner expansion loop (app.py lines 308-347), entered after the
outer validation of `iStart` returned valid (`processed` already counts
`iStart`; `found` does not yet).  After each body pass the cursor advances
to `j + 1` and the boundary check of line 346 may break with that value. -/
def expandLoop (env : Env) (cfg : ScanCfg) (iStart : Int) :
    Int → ScanState → Nat → Option (ScanState × ExpandExit)
  | _, _, 0 => Option.none
  | j, st, fuel+1 =>
    match expandStep env cfg iStart j st with
    | .exit st2 ex => some (st2, ex)
    | .next st2 =>
      if outOfRange cfg (j + 1) then some (st2, .normal (j + 1))
      else expandLoop env cfg iStart (j + 1) st2 fuel

/-- The outer checkpoint loop (app.py lines 295-373). -/
def scanLoop (env : Env) (cfg : ScanCfg) :
    Int → ScanState → Nat → Option ScanState
  | _, _, 0 => Option.none
  | i, st, fuel+1 =>
    if outOfRange cfg i then some st
    else
      match env.validate st.kv with
      | .error =>
        scanLoop env cfg (next_checkpoint_id (i + 1))
          { st with
            kv := st.kv + 1
            errors := st.errors + 1
            visited := st.visited ++ [i] } fuel
      | .invalid =>
        scanLoop env cfg (next_checkpoint_id (i + 1))
          { st with
            kv := st.kv + 1
            processed := st.processed + 1
            skipped := st.skipped + 1
            visited := st.visited ++ [i] } fuel
      | .valid =>
        match expandLoop env cfg i i
            { st with
              kv := st.kv + 1
              processed := st.processed + 1
              visited := st.visited ++ [i] } fuel with
        | Option.none => Option.none
        | some (st2, .exc) =>
          scanLoop env cfg (next_checkpoint_id (i + 1))
            { st2 with errors := st2.errors + 1 } fuel
        | some (st2, .normal j) =>
          scanLoop env cfg (next_checkpoint_id j) st2 fuel

/-- The checkpoint-strategy branch of `run_scan`. -/
def run_scan_checkpoint (env : Env) (cfg : ScanCfg) (fuel : Nat) :
    Option ScanState :=
  scanLoop env cfg cfg.start_id initScan fuel

/-- Loop guard of the linear strategy (app.py line 266):
done when `i` has crossed `end_id` in the step direction. -/
def linearDone (cfg : ScanCfg) (i : Int) : Bool :=
  if cfg.start_id ≤ cfg.end_id then cfg.end_id < i else i < cfg.end_id

def linearStep (cfg : ScanCfg) : Int :=
  if cfg.start_id ≤ cfg.end_id then 1 else -1

/-- The linear-strategy loop (app.py lines 262-288).  Note that a valid id
with `fetch_data_for_valid = False` falls into the `else` branch and is
counted as skipped, and that `processed += 1` runs only when the item's
calls did not raise. -/
def linearLoop (env : Env) (cfg : ScanCfg) :
    Int → ScanState → Nat → Option ScanState
  | _, _, 0 => Option.none
  | i, st, fuel+1 =>
    if linearDone cfg i then some st
    else
      match env.validate st.kv with
      | .error =>
        linearLoop env cfg (i + linearStep cfg)
          { st with
            kv := st.kv + 1
            errors := st.errors + 1
            visited := st.visited ++ [i] } fuel
      | .valid =>
        let st1 := { st with
          kv := st.kv + 1
          visited := st.visited ++ [i] }
        if cfg.fetch_data_for_valid then
          match env.fetch st1.kf with
          | .fail =>
            linearLoop env cfg (i + linearStep cfg)
              { st1 with
                kf := st1.kf + 1
                errors := st1.errors + 1
                errFetch := st1.errFetch + 1 } fuel
          | .ok =>
            linearLoop env cfg (i + linearStep cfg)
              { st1 with
                kf := st1.kf + 1
                found := st1.found + 1
                processed := st1.processed + 1 } fuel
        else
          linearLoop env cfg (i + linearStep cfg)
            { st1 with
              skipped := st1.skipped + 1
              processed := st1.processed + 1 } fuel
      | .invalid =>
        linearLoop env cfg (i + linearStep cfg)
          { st with
            kv := st.kv + 1
            skipped := st.skipped + 1
            processed := st.processed + 1
            visited := st.visited ++ [i] } fuel

/-- The linear-strategy branch of `run_scan`. -/
def run_scan_linear (env : Env) (cfg : ScanCfg) (fuel : Nat) :
    Option ScanState :=
  linearLoop env cfg cfg.start_id initScan fuel

def envAllError : Env := ⟨fun _ => VOut.error, fun _ => FOut.ok⟩

def envAllInvalid : Env := ⟨fun _ => VOut.invalid, fun _ => FOut.ok⟩

/-! ### Counter bookkeeping (claim C1)

With `pending = 1` exactly while the id validated by the outer loop has not
yet been resolved into a bucket, the balanced quantity is
`processed = found + skipped + errFetch`: `processed` counts successful
`validate_only` calls, so a validation error leaves `processed` untouched
while still counting in `errors`, and a fetch error after a successful
validation is the `errFetch` part of `errors`. -/

theorem expandStep_inv_exit (env : Env) (cfg : ScanCfg) (iStart j : Int)
    (st st2 : ScanState) (ex : ExpandExit)
    (h : expandStep env cfg iStart j st = .exit st2 ex)
    (hbal : st.processed = st.found + st.skipped + st.errFetch
      + (if j = iStart then 1 else 0)) :
    st2.processed = st2.found + st2.skipped + st2.errFetch ∧
    st2.errors = st.errors ∧
    st2.errFetch ≤ st.errFetch + (if ex = ExpandExit.exc then 1 else 0) := by
  unfold expandStep at h
  by_cases hji : j = iStart
  · rw [if_pos hji] at h hbal
    by_cases hfd : cfg.fetch_data_for_valid = true
    · rw [if_pos hfd] at h
      cases hf : env.fetch st.kf with
      | fail =>
        rw [hf] at h
        try dsimp only at h
        injection h with h1 h2
        subst h1
        subst h2
        refine ⟨by simp; omega, by simp, by simp⟩
      | ok =>
        rw [hf] at h
        try dsimp only at h
        exact absurd h (by simp)
    · rw [if_neg hfd] at h
      exact absurd h (by simp)
  · rw [if_neg hji] at h hbal
    cases hv : env.validate st.kv with
    | valid =>
      rw [hv] at h
      try dsimp only at h
      by_cases hfd : cfg.fetch_data_for_valid = true
      · rw [if_pos hfd] at h
        cases hf : env.fetch st.kf with
        | fail =>
          rw [hf] at h
          try dsimp only at h
          injection h with h1 h2
          subst h1
          subst h2
          refine ⟨by simp; omega, by simp, by simp⟩
        | ok =>
          rw [hf] at h
          try dsimp only at h
          exact absurd h (by simp)
      · rw [if_neg hfd] at h
        exact absurd h (by simp)
    | invalid =>
      rw [hv] at h
      try dsimp only at h
      injection h with h1 h2
      subst h1
      subst h2
      refine ⟨by simp; omega, by simp, by simp⟩
    | error =>
      rw [hv] at h
      try dsimp only at h
      injection h with h1 h2
      subst h1
      subst h2
      refine ⟨by simp; omega, by simp, by simp⟩

theorem expandStep_inv_next (env : Env) (cfg : ScanCfg) (iStart j : Int)
    (st st2 : ScanState)
    (h : expandStep env cfg iStart j st = .next st2)
    (hbal : st.processed = st.found + st.skipped + st.errFetch
      + (if j = iStart then 1 else 0)) :
    st2.processed = st2.found + st2.skipped + st2.errFetch ∧
    st2.errors = st.errors ∧
    st2.errFetch = st.errFetch := by
  unfold expandStep at h
  by_cases hji : j = iStart
  · rw [if_pos hji] at h hbal
    by_cases hfd : cfg.fetch_data_for_valid = true
    · rw [if_pos hfd] at h
      cases hf : env.fetch st.kf with
      | fail =>
        rw [hf] at h
        try dsimp only at h
        exact absurd h (by simp)
      | ok =>
        rw [hf] at h
        try dsimp only at h
        injection h with h1
        subst h1
        refine ⟨by simp; omega, by simp, by simp⟩
    · rw [if_neg hfd] at h
      try dsimp only at h
      injection h with h1
      subst h1
      refine ⟨by simp; omega, by simp, by simp⟩
  · rw [if_neg hji] at h hbal
    cases hv : env.validate st.kv with
    | valid =>
      rw [hv] at h
      try dsimp only at h
      by_cases hfd : cfg.fetch_data_for_valid = true
      · rw [if_pos hfd] at h
        cases hf : env.fetch st.kf with
        | fail =>
          rw [hf] at h
          try dsimp only at h
          exact absurd h (by simp)
        | ok =>
          rw [hf] at h
          try dsimp only at h
          injection h with h1
          subst h1
          refine ⟨by simp; omega, by simp, by simp⟩
      · rw [if_neg hfd] at h
        try dsimp only at h
        injection h with h1
        subst h1
        refine ⟨by simp; omega, by simp, by simp⟩
    | invalid =>
      rw [hv] at h
      try dsimp only at h
      exact absurd h (by simp)
    | error =>
      rw [hv] at h
      try dsimp only at h
      exact absurd h (by simp)

theorem expandLoop_inv (env : Env) (cfg : ScanCfg) (iStart : Int) :
    ∀ (fuel : Nat) (j : Int) (st st2 : ScanState) (ex : ExpandExit),
      iStart ≤ j →
      expandLoop env cfg iStart j st fuel = some (st2, ex) →
      st.processed = st.found + st.skipped + st.errFetch
        + (if j = iStart then 1 else 0) →
      st2.processed = st2.found + st2.skipped + st2.errFetch ∧
      st2.errors = st.errors ∧
      st2.errFetch ≤ st.errFetch + (if ex = ExpandExit.exc then 1 else 0) := by
  intro fuel
  induction fuel with
  | zero =>
    intro j st st2 ex _ h _
    exact absurd h (by simp [expandLoop])
  | succ fuel ih =>
    intro j st st2 ex hj h hbal
    rw [expandLoop] at h
    cases hs : expandStep env cfg iStart j st with
    | exit st3 ex3 =>
      rw [hs] at h
      try dsimp only at h
      injection h with h1
      injection h1 with h1 h2
      subst h1
      subst h2
      exact expandStep_inv_exit env cfg iStart j st _ _ hs hbal
    | next st3 =>
      rw [hs] at h
      try dsimp only at h
      have hstep := expandStep_inv_next env cfg iStart j st st3 hs hbal
      by_cases hb : outOfRange cfg (j + 1) = true
      · rw [if_pos hb] at h
        injection h with h1
        injection h1 with h1 h2
        subst h1
        subst h2
        exact ⟨hstep.1, hstep.2.1, by simp [hstep.2.2]⟩
      · rw [if_neg hb] at h
        have hrec := ih (j + 1) st3 st2 ex (by omega) h
          (by rw [if_neg (by omega : ¬(j + 1 = iStart))]; omega)
        refine ⟨hrec.1, by omega, ?_⟩
        have h1 := hrec.2.2
        have h2 := hstep.2.2
        split_ifs at h1 ⊢ <;> omega

theorem scanLoop_inv (env : Env) (cfg : ScanCfg) :
    ∀ (fuel : Nat) (i : Int) (st stF : ScanState),
      scanLoop env cfg i st fuel = some stF →
      st.processed = st.found + st.skipped + st.errFetch →
      st.errFetch ≤ st.errors →
      stF.processed = stF.found + stF.skipped + stF.errFetch ∧
      stF.errFetch ≤ stF.errors := by
  intro fuel
  induction fuel with
  | zero =>
    intro i st stF h _ _
    exact absurd h (by simp [scanLoop])
  | succ fuel ih =>
    intro i st stF h hbal herr
    rw [scanLoop] at h
    by_cases hr : outOfRange cfg i = true
    · rw [if_pos hr] at h
      injection h with h1
      subst h1
      exact ⟨hbal, herr⟩
    · rw [if_neg hr] at h
      cases hv : env.validate st.kv with
      | valid =>
        rw [hv] at h
        try dsimp only at h
        cases he : expandLoop env cfg i i
            { st with
              kv := st.kv + 1
              processed := st.processed + 1
              visited := st.visited ++ [i] } fuel with
        | none =>
          rw [he] at h
          exact absurd h (by simp)
        | some p =>
          obtain ⟨st2, ex⟩ := p
          rw [he] at h
          have hexp := expandLoop_inv env cfg i fuel i _ st2 ex le_rfl he
            (by simp; omega)
          dsimp only at hexp
          cases ex with
          | normal j2 =>
            try dsimp only at h
            refine ih _ _ _ h hexp.1 ?_
            have h1 := hexp.2.1
            have h2 := hexp.2.2
            simp at h2
            omega
          | exc =>
            try dsimp only at h
            refine ih _ _ _ h ?_ ?_
            · simpa using hexp.1
            · have h1 := hexp.2.1
              have h2 := hexp.2.2
              simp at h2 ⊢
              omega
      | invalid =>
        rw [hv] at h
        try dsimp only at h
        refine ih _ _ _ h ?_ ?_ <;> simp <;> omega
      | error =>
        rw [hv] at h
        try dsimp only at h
        refine ih _ _ _ h ?_ ?_ <;> simp <;> omega

theorem linearLoop_inv (env : Env) (cfg : ScanCfg) :
    ∀ (fuel : Nat) (i : Int) (st stF : ScanState),
      linearLoop env cfg i st fuel = some stF →
      st.processed = st.found + st.skipped →
      stF.processed = stF.found + stF.skipped := by
  intro fuel
  induction fuel with
  | zero =>
    intro i st stF h _
    exact absurd h (by simp [linearLoop])
  | succ fuel ih =>
    intro i st stF h hbal
    rw [linearLoop] at h
    by_cases hr : linearDone cfg i
    · rw [if_pos hr] at h
      simp at h
      subst h
      exact hbal
    · rw [if_neg hr] at h
      cases hv : env.validate st.kv <;> rw [hv] at h
      · -- valid
        by_cases hfd : cfg.fetch_data_for_valid
        · rw [if_pos hfd] at h
          cases hf : env.fetch _ <;> rw [hf] at h
          · exact ih _ _ _ h (by simp; omega)
          · exact ih _ _ _ h (by simp; omega)
        · rw [if_neg hfd] at h
          exact ih _ _ _ h (by simp; omega)
      · exact ih _ _ _ h (by simp; omega)
      · exact ih _ _ _ h (by simp; omega)

/-- C1 counterexample: checkpoint scan of the one-id range 10..10 where the
validation of id 10 raises (after retries).  The job completes with
`processed = 0, found = 0, skipped = 0, errors = 1`, so
`processed = found + skipped + errors` is false at completion: the errored
id was counted in `errors` but never in `processed`. -/
theorem C1_counterexample :
    run_scan_checkpoint envAllError ⟨10, 10, true⟩ 5 =
      some ⟨0, 0, 0, 1, 1, 0, [10], 0⟩ ∧
    (Option.map (fun st => decide (st.processed = st.found + st.skipped + st.errors))
      (run_scan_checkpoint envAllError ⟨10, 10, true⟩ 5)) = some false := by
  exact ⟨by decide, by decide⟩

/-- C1 amended: at completion of a checkpoint-strategy job,
`processed = found + skipped + F` where the ghost counter `F ≤ errors`
counts only the errors raised by the full-data fetch after a successful
validation (so `found + skipped ≤ processed ≤ found + skipped + errors`,
with equality on the right only when every error arose in the fetch phase;
validation errors are counted in `errors` but not in `processed`).  At
completion of a linear-strategy job `processed = found + skipped` exactly,
with `errors` always disjoint from `processed`. -/
theorem C1_stats_invariant :
    (∀ (env : Env) (cfg : ScanCfg) (fuel : Nat) (st : ScanState),
        run_scan_checkpoint env cfg fuel = some st →
        st.processed = st.found + st.skipped + st.errFetch ∧
        st.errFetch ≤ st.errors ∧
        st.found + st.skipped ≤ st.processed ∧
        st.processed ≤ st.found + st.skipped + st.errors) ∧
    (∀ (env : Env) (cfg : ScanCfg) (fuel : Nat) (st : ScanState),
        run_scan_linear env cfg fuel = some st →
        st.processed = st.found + st.skipped) := by
  constructor
  · intro env cfg fuel st h
    have hinv := scanLoop_inv env cfg fuel cfg.start_id initScan st h rfl
      (by simp [initScan])
    exact ⟨hinv.1, hinv.2, by omega, by omega⟩
  · intro env cfg fuel st h
    exact linearLoop_inv env cfg fuel cfg.start_id initScan st h rfl

/-! ### Termination of the checkpoint loop (claim C4) -/

theorem outOfRange_asc_iff (cfg : ScanCfg) (hasc : cfg.start_id ≤ cfg.end_id)
    (x : Int) : outOfRange cfg x = true ↔ cfg.end_id < x := by
  unfold outOfRange
  simp only [Bool.or_eq_true, Bool.and_eq_true, decide_eq_true_eq]
  omega

theorem outOfRange_desc_false (cfg : ScanCfg) (hdesc : cfg.end_id < cfg.start_id)
    (x : Int) (hx : cfg.end_id ≤ x) : ¬(outOfRange cfg x = true) := by
  unfold outOfRange
  simp only [Bool.or_eq_true, Bool.and_eq_true, decide_eq_true_eq]
  omega

theorem expandLoop_mono (env : Env) (cfg : ScanCfg) (iStart : Int) :
    ∀ (fuel : Nat) (j : Int) (st : ScanState) (r : ScanState × ExpandExit),
      expandLoop env cfg iStart j st fuel = some r →
      expandLoop env cfg iStart j st (fuel + 1) = some r := by
  intro fuel
  induction fuel with
  | zero =>
    intro j st r h
    exact absurd h (by simp [expandLoop])
  | succ fuel ih =>
    intro j st r h
    rw [expandLoop] at h
    rw [expandLoop]
    cases hs : expandStep env cfg iStart j st with
    | exit st3 ex3 =>
      try rw [hs] at h
      try rw [hs]
      exact h
    | next st3 =>
      try rw [hs] at h
      try rw [hs]
      try dsimp only at h ⊢
      by_cases hb : outOfRange cfg (j + 1) = true
      · rw [if_pos hb] at h ⊢
        exact h
      · rw [if_neg hb] at h ⊢
        exact ih _ _ _ h

theorem expandLoop_mono_le (env : Env) (cfg : ScanCfg) (iStart : Int)
    {fuel fuel' : Nat} (hle : fuel ≤ fuel') {j : Int} {st : ScanState}
    {r : ScanState × ExpandExit}
    (h : expandLoop env cfg iStart j st fuel = some r) :
    expandLoop env cfg iStart j st fuel' = some r := by
  induction hle with
  | refl => exact h
  | step _ ih => exact expandLoop_mono env cfg iStart _ j st r ih

theorem scanLoop_mono (env : Env) (cfg : ScanCfg) :
    ∀ (fuel : Nat) (i : Int) (st stF : ScanState),
      scanLoop env cfg i st fuel = some stF →
      scanLoop env cfg i st (fuel + 1) = some stF := by
  intro fuel
  induction fuel with
  | zero =>
    intro i st stF h
    exact absurd h (by simp [scanLoop])
  | succ fuel ih =>
    intro i st stF h
    rw [scanLoop] at h
    rw [scanLoop]
    by_cases hr : outOfRange cfg i = true
    · rw [if_pos hr] at h ⊢
      exact h
    · rw [if_neg hr] at h ⊢
      cases hv : env.validate st.kv with
      | valid =>
        try rw [hv] at h
        try rw [hv]
        try dsimp only at h ⊢
        cases he : expandLoop env cfg i i
            { st with
              kv := st.kv + 1
              processed := st.processed + 1
              visited := st.visited ++ [i] } fuel with
        | none =>
          try rw [he] at h
          exact absurd h (by simp)
        | some p =>
          obtain ⟨st2, ex⟩ := p
          try rw [he] at h
          rw [expandLoop_mono env cfg i fuel i _ (st2, ex) he]
          try dsimp only at h ⊢
          cases ex with
          | normal j2 => exact ih _ _ _ h
          | exc => exact ih _ _ _ h
      | invalid =>
        try rw [hv] at h
        try rw [hv]
        try dsimp only at h ⊢
        exact ih _ _ _ h
      | error =>
        try rw [hv] at h
        try rw [hv]
        try dsimp only at h ⊢
        exact ih _ _ _ h

theorem scanLoop_mono_le (env : Env) (cfg : ScanCfg)
    {fuel fuel' : Nat} (hle : fuel ≤ fuel') {i : Int} {st stF : ScanState}
    (h : scanLoop env cfg i st fuel = some stF) :
    scanLoop env cfg i st fuel' = some stF := by
  induction hle with
  | refl => exact h
  | step _ ih => exact scanLoop_mono env cfg _ i st stF ih

theorem expandStep_exit_normal (env : Env) (cfg : ScanCfg) (iStart j : Int)
    (st st2 : ScanState) (j2 : Int)
    (h : expandStep env cfg iStart j st = .exit st2 (ExpandExit.normal j2)) :
    j2 = j ∧ ¬(j = iStart) := by
  unfold expandStep at h
  by_cases hji : j = iStart
  · rw [if_pos hji] at h
    by_cases hfd : cfg.fetch_data_for_valid = true
    · rw [if_pos hfd] at h
      cases hf : env.fetch st.kf with
      | fail =>
        rw [hf] at h
        try dsimp only at h
        injection h with h1 h2
        injection h2
      | ok =>
        rw [hf] at h
        try dsimp only at h
        exact absurd h (by simp)
    · rw [if_neg hfd] at h
      exact absurd h (by simp)
  · rw [if_neg hji] at h
    cases hv : env.validate st.kv with
    | valid =>
      try rw [hv] at h
      try dsimp only at h
      by_cases hfd : cfg.fetch_data_for_valid = true
      · rw [if_pos hfd] at h
        cases hf : env.fetch st.kf with
        | fail =>
          rw [hf] at h
          try dsimp only at h
          injection h with h1 h2
          injection h2
        | ok =>
          rw [hf] at h
          try dsimp only at h
          exact absurd h (by simp)
      · rw [if_neg hfd] at h
        exact absurd h (by simp)
    | invalid =>
      try rw [hv] at h
      try dsimp only at h
      injection h with h1 h2
      injection h2 with h2
      exact ⟨h2.symm, hji⟩
    | error =>
      try rw [hv] at h
      try dsimp only at h
      injection h with h1 h2
      injection h2

theorem expandLoop_exit_gt (env : Env) (cfg : ScanCfg) (iStart : Int) :
    ∀ (fuel : Nat) (j : Int) (st st2 : ScanState) (j2 : Int),
      iStart ≤ j →
      expandLoop env cfg iStart j st fuel = some (st2, ExpandExit.normal j2) →
      iStart < j2 ∧ j ≤ j2 := by
  intro fuel
  induction fuel with
  | zero =>
    intro j st st2 j2 _ h
    exact absurd h (by simp [expandLoop])
  | succ fuel ih =>
    intro j st st2 j2 hj h
    rw [expandLoop] at h
    cases hs : expandStep env cfg iStart j st with
    | exit st3 ex3 =>
      try rw [hs] at h
      try dsimp only at h
      injection h with h1
      injection h1 with h1 h2
      subst h1
      subst h2
      have := expandStep_exit_normal env cfg iStart j st _ _ hs
      omega
    | next st3 =>
      try rw [hs] at h
      try dsimp only at h
      by_cases hb : outOfRange cfg (j + 1) = true
      · rw [if_pos hb] at h
        injection h with h1
        injection h1 with h1 h2
        injection h2 with h2
        omega
      · rw [if_neg hb] at h
        have := ih (j + 1) st3 st2 j2 (by omega) h
        omega

theorem expandLoop_term (env : Env) (cfg : ScanCfg) (iStart : Int)
    (hasc : cfg.start_id ≤ cfg.end_id) :
    ∀ (n : Nat) (j : Int) (st : ScanState),
      (cfg.end_id + 1 - j).toNat ≤ n →
      ∃ (fuel : Nat) (r : ScanState × ExpandExit),
        expandLoop env cfg iStart j st fuel = some r := by
  intro n
  induction n with
  | zero =>
    intro j st hm
    cases hs : expandStep env cfg iStart j st with
    | exit st3 ex3 =>
      exact ⟨1, (st3, ex3), by rw [expandLoop]; rw [hs]⟩
    | next st3 =>
      have hb : outOfRange cfg (j + 1) = true :=
        (outOfRange_asc_iff cfg hasc (j + 1)).mpr (by omega)
      refine ⟨1, (st3, .normal (j + 1)), ?_⟩
      rw [expandLoop]
      try rw [hs]
      try dsimp only
      rw [if_pos hb]
  | succ n ihn =>
    intro j st hm
    cases hs : expandStep env cfg iStart j st with
    | exit st3 ex3 =>
      exact ⟨1, (st3, ex3), by rw [expandLoop]; rw [hs]⟩
    | next st3 =>
      by_cases hb : outOfRange cfg (j + 1) = true
      · refine ⟨1, (st3, .normal (j + 1)), ?_⟩
        rw [expandLoop]
        try rw [hs]
        try dsimp only
        rw [if_pos hb]
      · have hj1 : ¬(cfg.end_id < j + 1) := by
          intro hlt
          exact hb ((outOfRange_asc_iff cfg hasc (j + 1)).mpr hlt)
        obtain ⟨fuel, r, hr⟩ := ihn (j + 1) st3 (by omega)
        refine ⟨fuel + 1, r, ?_⟩
        rw [expandLoop]
        try rw [hs]
        try dsimp only
        rw [if_neg hb]
        exact hr

theorem scanLoop_term (env : Env) (cfg : ScanCfg)
    (hasc : cfg.start_id ≤ cfg.end_id) :
    ∀ (n : Nat) (i : Int) (st : ScanState),
      (cfg.end_id + 1 - i).toNat ≤ n →
      ∃ (fuel : Nat) (stF : ScanState),
        scanLoop env cfg i st fuel = some stF := by
  intro n
  induction n with
  | zero =>
    intro i st hm
    have hr : outOfRange cfg i = true :=
      (outOfRange_asc_iff cfg hasc i).mpr (by omega)
    exact ⟨1, st, by rw [scanLoop]; rw [if_pos hr]⟩
  | succ n ihn =>
    intro i st hm
    by_cases hr : outOfRange cfg i = true
    · exact ⟨1, st, by rw [scanLoop]; rw [if_pos hr]⟩
    · have hi : i ≤ cfg.end_id := by
        by_contra hlt
        exact hr ((outOfRange_asc_iff cfg hasc i).mpr (by omega))
      have hnc := next_checkpoint_id_ge (i + 1)
      cases hv : env.validate st.kv with
      | valid =>
        obtain ⟨fe, ⟨st2, ex⟩, he⟩ :=
          expandLoop_term env cfg i hasc ((cfg.end_id + 1 - i).toNat) i
            { st with
              kv := st.kv + 1
              processed := st.processed + 1
              visited := st.visited ++ [i] } le_rfl
        cases ex with
        | exc =>
          obtain ⟨fr, stF, hrec⟩ := ihn (next_checkpoint_id (i + 1))
            { st2 with errors := st2.errors + 1 } (by omega)
          refine ⟨max fe fr + 1, stF, ?_⟩
          rw [scanLoop]
          rw [if_neg hr]
          try rw [hv]
          try dsimp only
          rw [expandLoop_mono_le env cfg i (Nat.le_max_left fe fr) he]
          try dsimp only
          exact scanLoop_mono_le env cfg (Nat.le_max_right fe fr) hrec
        | normal j2 =>
          have hgt := expandLoop_exit_gt env cfg i fe i _ st2 j2 le_rfl he
          have hnc2 := next_checkpoint_id_ge j2
          obtain ⟨fr, stF, hrec⟩ := ihn (next_checkpoint_id j2) st2 (by omega)
          refine ⟨max fe fr + 1, stF, ?_⟩
          rw [scanLoop]
          rw [if_neg hr]
          try rw [hv]
          try dsimp only
          rw [expandLoop_mono_le env cfg i (Nat.le_max_left fe fr) he]
          try dsimp only
          exact scanLoop_mono_le env cfg (Nat.le_max_right fe fr) hrec
      | invalid =>
        obtain ⟨fr, stF, hrec⟩ := ihn (next_checkpoint_id (i + 1))
          { st with
            kv := st.kv + 1
            processed := st.processed + 1
            skipped := st.skipped + 1
            visited := st.visited ++ [i] } (by omega)
        refine ⟨fr + 1, stF, ?_⟩
        rw [scanLoop]
        rw [if_neg hr]
        try rw [hv]
        try dsimp only
        exact hrec
      | error =>
        obtain ⟨fr, stF, hrec⟩ := ihn (next_checkpoint_id (i + 1))
          { st with
            kv := st.kv + 1
            errors := st.errors + 1
            visited := st.visited ++ [i] } (by omega)
        refine ⟨fr + 1, stF, ?_⟩
        rw [scanLoop]
        rw [if_neg hr]
        try rw [hv]
        try dsimp only
        exact hrec

theorem scanLoop_desc_none (env : Env) (cfg : ScanCfg)
    (hdesc : cfg.end_id < cfg.start_id) :
    ∀ (fuel : Nat) (i : Int) (st : ScanState), cfg.end_id ≤ i →
      scanLoop env cfg i st fuel = Option.none := by
  intro fuel
  induction fuel with
  | zero =>
    intro i st _
    rfl
  | succ fuel ih =>
    intro i st hi
    rw [scanLoop]
    rw [if_neg (outOfRange_desc_false cfg hdesc i hi)]
    have hnc := next_checkpoint_id_ge (i + 1)
    cases hv : env.validate st.kv with
    | valid =>
      try rw [hv]
      try dsimp only
      cases he : expandLoop env cfg i i
          { st with
            kv := st.kv + 1
            processed := st.processed + 1
            visited := st.visited ++ [i] } fuel with
      | none =>
        try rw [he]
        rfl
      | some p =>
        obtain ⟨st2, ex⟩ := p
        try rw [he]
        try dsimp only
        cases ex with
        | exc => exact ih _ _ (by omega)
        | normal j2 =>
          have hgt := expandLoop_exit_gt env cfg i fuel i _ st2 j2 le_rfl he
          have hnc2 := next_checkpoint_id_ge j2
          exact ih _ _ (by omega)
    | invalid =>
      try rw [hv]
      try dsimp only
      exact ih _ _ (by omega)
    | error =>
      try rw [hv]
      try dsimp only
      exact ih _ _ (by omega)

/-- A checkpoint scan reaches its terminal state when some fuel makes the
loop exit; an unbounded loop returns `Option.none` at every fuel. -/
def ScanTerminates (env : Env) (cfg : ScanCfg) : Prop :=
  ∃ (fuel : Nat) (st : ScanState), run_scan_checkpoint env cfg fuel = some st

def c4Cfg : ScanCfg := ⟨20, 10, true⟩

/-- C4 counterexample: the descending checkpoint scan of 20..10 (every id
invalid) never reaches its terminal state: `next_checkpoint_id` only
increases the cursor, and the exit test for a descending range requires the
cursor to drop below `end_id`, so the loop runs forever. -/
theorem C4_counterexample : ScanTerminates envAllInvalid c4Cfg = False := by
  apply eq_false
  rintro ⟨fuel, st, h⟩
  unfold run_scan_checkpoint at h
  rw [scanLoop_desc_none envAllInvalid c4Cfg (by decide) fuel
    c4Cfg.start_id initScan (by decide)] at h
  exact Option.noConfusion h

/-- C4 amended: for every ascending range (`start_id ≤ end_id`) the
checkpoint loop terminates for every oracle; for every descending range
(`start_id > end_id`) it never terminates — the cursor only moves upward,
away from `end_id`, so the boundary is never crossed. -/
theorem C4_scan_termination :
    (∀ (env : Env) (cfg : ScanCfg), cfg.start_id ≤ cfg.end_id →
        ScanTerminates env cfg) ∧
    (∀ (env : Env) (cfg : ScanCfg) (fuel : Nat), cfg.end_id < cfg.start_id →
        run_scan_checkpoint env cfg fuel = Option.none) := by
  constructor
  · intro env cfg hasc
    obtain ⟨fuel, stF, h⟩ := scanLoop_term env cfg hasc
      ((cfg.end_id + 1 - cfg.start_id).toNat) cfg.start_id initScan le_rfl
    exact ⟨fuel, stF, h⟩
  · intro env cfg fuel hdesc
    exact scanLoop_desc_none env cfg hdesc fuel cfg.start_id initScan (by omega)

/-! ### Checkpoint scans in which no id is valid (claim C7) -/

/-- Cursor trajectory of the outer loop when every validation returns
invalid on an ascending range: visit `i`, then jump to
`next_checkpoint_id (i + 1)`, until the cursor passes `endId`. -/
def invalidChain (endId : Int) (i : Int) : List Int :=
  if endId < i then [] else i :: invalidChain endId (next_checkpoint_id (i + 1))
termination_by (endId + 1 - i).toNat
decreasing_by
  have := next_checkpoint_id_ge (i + 1)
  simp_wf
  omega

theorem invalidChain_eq (endId i : Int) :
    invalidChain endId i =
      if endId < i then []
      else i :: invalidChain endId (next_checkpoint_id (i + 1)) := by
  rw [invalidChain]

/-- Contents of the trajectory: the start cursor itself, plus every
checkpoint strictly between the start cursor and the end of the range;
and the trajectory is strictly increasing. -/
theorem invalidChain_spec (endId : Int) :
    ∀ (n : Nat) (i : Int), (endId + 1 - i).toNat ≤ n →
      (∀ x, x ∈ invalidChain endId i ↔
        (i ≤ endId ∧ (x = i ∨ (is_checkpoint_id x = true ∧ i < x ∧ x ≤ endId)))) ∧
      List.Chain' (fun a b => a < b) (invalidChain endId i) := by
  intro n
  induction n with
  | zero =>
    intro i hm
    rw [invalidChain_eq, if_pos (by omega : endId < i)]
    refine ⟨?_, List.chain'_nil⟩
    intro x
    simp only [List.not_mem_nil, false_iff]
    rintro ⟨hie, _⟩
    omega
  | succ n ihn =>
    intro i hm
    by_cases hle : endId < i
    · rw [invalidChain_eq, if_pos hle]
      refine ⟨?_, List.chain'_nil⟩
      intro x
      simp only [List.not_mem_nil, false_iff]
      rintro ⟨hie, _⟩
      omega
    · have hnc := next_checkpoint_id_ge (i + 1)
      have hcp := next_checkpoint_id_is_checkpoint (i + 1)
      have ih := ihn (next_checkpoint_id (i + 1)) (by omega)
      rw [invalidChain_eq, if_neg hle]
      constructor
      · intro x
        simp only [List.mem_cons]
        rw [(ih.1 x)]
        constructor
        · rintro (rfl | ⟨hni, hxi⟩)
          · exact ⟨by omega, Or.inl rfl⟩
          · rcases hxi with rfl | ⟨hcpx, hlt, hxe⟩
            · exact ⟨by omega, Or.inr ⟨hcp, by omega, hni⟩⟩
            · exact ⟨by omega, Or.inr ⟨hcpx, by omega, hxe⟩⟩
        · rintro ⟨hie, rfl | ⟨hcpx, hlt, hxe⟩⟩
          · exact Or.inl rfl
          · have hminx := next_checkpoint_id_min (i + 1) x (by omega) hcpx
            right
            refine ⟨by omega, ?_⟩
            by_cases hx : x = next_checkpoint_id (i + 1)
            · exact Or.inl hx
            · exact Or.inr ⟨hcpx, by omega, hxe⟩
      · rw [List.chain'_cons']
        refine ⟨?_, ih.2⟩
        intro b hb
        rw [invalidChain_eq] at hb
        by_cases h2 : endId < next_checkpoint_id (i + 1)
        · rw [if_pos h2] at hb
          simp at hb
        · rw [if_neg h2] at hb
          simp at hb
          subst hb
          omega

theorem scanLoop_all_invalid (env : Env) (cfg : ScanCfg)
    (hv : ∀ k, env.validate k = VOut.invalid) :
    ∀ (fuel : Nat) (i : Int) (st stF : ScanState),
      cfg.start_id ≤ cfg.end_id →
      scanLoop env cfg i st fuel = some stF →
      stF.processed = st.processed + (invalidChain cfg.end_id i).length ∧
      stF.found = st.found ∧
      stF.skipped = st.skipped + (invalidChain cfg.end_id i).length ∧
      stF.errors = st.errors ∧
      stF.visited = st.visited ++ invalidChain cfg.end_id i := by
  intro fuel
  induction fuel with
  | zero =>
    intro i st stF _ h
    exact absurd h (by simp [scanLoop])
  | succ fuel ih =>
    intro i st stF hasc h
    rw [scanLoop] at h
    by_cases hr : outOfRange cfg i = true
    · rw [if_pos hr] at h
      injection h with h1
      subst h1
      rw [invalidChain_eq, if_pos ((outOfRange_asc_iff cfg hasc i).mp hr)]
      simp
    · rw [if_neg hr] at h
      rw [hv st.kv] at h
      try dsimp only at h
      have hi : ¬(cfg.end_id < i) :=
        fun hlt => hr ((outOfRange_asc_iff cfg hasc i).mpr hlt)
      have hrec := ih (next_checkpoint_id (i + 1)) _ stF hasc h
      obtain ⟨h1, h2, h3, h4, h5⟩ := hrec
      dsimp only at h1 h2 h3 h4 h5
      rw [invalidChain_eq, if_neg hi]
      refine ⟨?_, h2, ?_, h4, ?_⟩
      · rw [h1]
        simp only [List.length_cons]
        omega
      · rw [h3]
        simp only [List.length_cons]
        omega
      · rw [h5, List.append_assoc]
        simp

/-- C7 counterexample: checkpoint scan of 40000..40040 with every id
invalid and no errors.  The scan also validates the non-checkpoint starting
id 40000, so the set of validated ids is not "exactly the checkpoint
positions within the range", and `skipped` (3) exceeds the number of
checkpoints visited (2). -/
theorem C7_counterexample :
    run_scan_checkpoint envAllInvalid ⟨40000, 40040, true⟩ 10 =
      some ⟨3, 0, 3, 0, 3, 0, [40000, 40010, 40030], 0⟩ ∧
    is_checkpoint_id 40000 = false ∧
    (List.filter is_checkpoint_id [40000, 40010, 40030]).length = 2 :=
  ⟨by decide, by decide, by decide⟩

/-- C7 amended: an ascending checkpoint scan in which every validation
returns invalid (and no call errors) validates, in strictly increasing
order, exactly the starting id followed by the checkpoint positions in
`(start_id, end_id]`; it finishes with `found = 0`, `errors = 0`, and
`skipped = processed =` the number of ids validated.  (When `start_id` is
itself a checkpoint this is exactly the set of checkpoints within the
range, as the claim states; otherwise the non-checkpoint start is also
validated and counted.) -/
theorem C7_checkpoint_scan_no_valid :
    ∀ (env : Env) (cfg : ScanCfg) (fuel : Nat) (stF : ScanState),
      cfg.start_id ≤ cfg.end_id →
      (∀ k, env.validate k = VOut.invalid) →
      run_scan_checkpoint env cfg fuel = some stF →
      stF.found = 0 ∧
      stF.errors = 0 ∧
      stF.skipped = stF.visited.length ∧
      stF.processed = stF.visited.length ∧
      List.Chain' (fun a b => a < b) stF.visited ∧
      (∀ x, x ∈ stF.visited ↔
        (x = cfg.start_id ∨
          (is_checkpoint_id x = true ∧ cfg.start_id < x ∧ x ≤ cfg.end_id))) := by
  intro env cfg fuel stF hasc hv h
  have hrun := scanLoop_all_invalid env cfg hv fuel cfg.start_id initScan stF hasc h
  obtain ⟨h1, h2, h3, h4, h5⟩ := hrun
  simp only [initScan, Nat.zero_add, List.nil_append] at h1 h2 h3 h4 h5
  have hspec := invalidChain_spec cfg.end_id
    ((cfg.end_id + 1 - cfg.start_id).toNat) cfg.start_id le_rfl
  refine ⟨h2, h4, ?_, ?_, ?_, ?_⟩
  · rw [h3, h5]
  · rw [h1, h5]
  · rw [h5]
    exact hspec.2
  · intro x
    rw [h5, hspec.1 x]
    constructor
    · rintro ⟨_, hx⟩
      exact hx
    · intro hx
      exact ⟨hasc, hx⟩

def c7wCfg : ScanCfg := ⟨40010, 40040, true⟩

def c7wSt : ScanState := ⟨2, 0, 2, 0, 2, 0, [40010, 40030], 0⟩

theorem C7_witness :
    c7wSt.found = 0 ∧
    c7wSt.errors = 0 ∧
    c7wSt.skipped = c7wSt.visited.length ∧
    c7wSt.processed = c7wSt.visited.length ∧
    List.Chain' (fun a b => a < b) c7wSt.visited ∧
    (∀ x, x ∈ c7wSt.visited ↔
      (x = c7wCfg.start_id ∨
        (is_checkpoint_id x = true ∧ c7wCfg.start_id < x ∧ x ≤ c7wCfg.end_id))) :=
  C7_checkpoint_scan_no_valid envAllInvalid c7wCfg 10 c7wSt (by decide)
    (fun _ => rfl) (by decide)

end RequestScan
